import Mathlib

/-!
Shallow embedding of the task file lifecycle manager of the Duix
Face2Face service (`src/app/main.py`), together with theorems checking
the specification's claims about it.

Paths are modelled as lists of components (`Path`), so that
`dataDir ++ [name]` is a file directly under the storage directory and
`dataDir ++ ["temp", name]` is a file inside the `temp` subdirectory.
Clock values and modification times are integers.  Filesystem deletion
failures are modelled by an `unlinkOk` oracle: a deletion attempt
succeeds exactly when the oracle says so.
-/

namespace Face2Face

/-- A filesystem path, as its list of components relative to the
filesystem root. -/
abbrev Path := List String

/-- Default storage directory (`DUIX_DATA_DIR`, default `/code/data`). -/
def DUIX_DATA_DIR : Path := ["code", "data"]

/-- Default deferred-reclaim delay in seconds (`CLEANUP_DELAY`), also
the grace threshold of the sweep. -/
def CLEANUP_DELAY : Int := 60

/-- Default maximum file/record age in seconds (`MAX_FILE_AGE`). -/
def MAX_FILE_AGE : Int := 7200

/-- One value of the `task_files` mapping: the record stored by
`submit_task` (audio/video input paths and creation time) and extended
by `get_result` (result file path and retrieval time). -/
structure TaskInfo where
  audio_local : Path
  video_local : Path
  result_file : Option Path
  created_time : Int
  result_retrieved_time : Option Int
deriving DecidableEq

/-- The `task_files` table: job identifier to record. -/
abbrev Registry := List (String × TaskInfo)

/-- `task_files.get(task_code)` (first binding wins, as in a dict). -/
def lookupTask : Registry → String → Option TaskInfo
  | [], _ => none
  | p :: r, tc => if p.1 = tc then some p.2 else lookupTask r tc

/-- In-place mutation of the record stored under `tc`. -/
def updateTask (r : Registry) (tc : String) (ti : TaskInfo) : Registry :=
  r.map (fun p => if p.1 = tc then (tc, ti) else p)

/-- `task_files.pop(tc, None)`. -/
def removeJob (r : Registry) (tc : String) : Registry :=
  r.filter (fun p => p.1 ≠ tc)

/-- The file paths a record contributes to the active set: the code
adds `task_info[key]` for `key` among `audio_local`, `video_local`,
`result_file` whenever the stored value is truthy (a non-empty path). -/
def recordFiles (ti : TaskInfo) : List Path :=
  (if ti.audio_local ≠ [] then [ti.audio_local] else []) ++
    (if ti.video_local ≠ [] then [ti.video_local] else []) ++
      (match ti.result_file with
        | some q => if q ≠ [] then [q] else []
        | none => [])

/-- `active_files`: the union over all current records. -/
def activeFiles (r : Registry) : List Path :=
  r.foldr (fun p acc => recordFiles p.2 ++ acc) []

/-- A directory entry as seen by `Path(...).iterdir()`. -/
structure FileEntry where
  path : Path
  isFile : Bool
  mtime : Int
deriving DecidableEq

/-- The `should_delete` decision of `periodic_cleanup` for one entry:
orphans (not in the active set) go once older than the grace delay,
active files only once older than the maximum age. -/
def sweepShouldDelete (active : List Path) (now grace maxAge : Int) (e : FileEntry) : Bool :=
  if e.path ∉ active then decide (now - e.mtime > grace)
  else decide (now - e.mtime > maxAge)

/-- Whether the pass actually unlinks the entry: a regular file, marked
for deletion, whose unlink attempt succeeds. -/
def sweepDeletes (active : List Path) (now grace maxAge : Int) (unlinkOk : Path → Bool)
    (e : FileEntry) : Bool :=
  e.isFile && sweepShouldDelete active now grace maxAge e && unlinkOk e.path

/-- The `stats` dictionary of `periodic_cleanup`. -/
structure SweepStats where
  orphan_files : Nat
  old_files : Nat
  expired_tasks : Nat
deriving DecidableEq

/-- Records with `current_time - created_time > MAX_FILE_AGE` are
dropped from the table. -/
def expireRecords (r : Registry) (now maxAge : Int) : Registry :=
  r.filter (fun p => decide (now - p.2.created_time ≤ maxAge))

/-- Result of one sweep pass over a directory listing. -/
structure SweepOutcome where
  survivors : List FileEntry
  deleted : List FileEntry
  registry : Registry
  stats : SweepStats
deriving DecidableEq

/-- One pass of `periodic_cleanup`: snapshot the active set, classify
and delete files, then expire old records.  Counters are incremented
when `should_delete` is set, before the unlink attempt, as in the
code. -/
def periodic_cleanup (r : Registry) (entries : List FileEntry) (now grace maxAge : Int)
    (unlinkOk : Path → Bool) : SweepOutcome :=
  let active := activeFiles r
  { survivors := entries.filter (fun e => ! sweepDeletes active now grace maxAge unlinkOk e)
    deleted := entries.filter (fun e => sweepDeletes active now grace maxAge unlinkOk e)
    registry := expireRecords r now maxAge
    stats :=
      { orphan_files :=
          (entries.filter (fun e =>
            e.isFile && decide (e.path ∉ active) && decide (now - e.mtime > grace))).length
        old_files :=
          (entries.filter (fun e =>
            e.isFile && decide (e.path ∈ active) && decide (now - e.mtime > maxAge))).length
        expired_tasks :=
          (r.filter (fun p => decide (now - p.2.created_time > maxAge))).length } }

/-- Remove the file at `p` from a flat file set. -/
def fsRemove (fs : List Path) (p : Path) : List Path :=
  fs.filter (fun q => q ≠ p)

/-- Create (or overwrite) a file at `p`. -/
def fsAdd (fs : List Path) (p : Path) : List Path :=
  p :: fsRemove fs p

/-- `os.unlink`: raises when the path is missing or when the oracle
makes the deletion fail. -/
def os_unlink (fs : List Path) (p : Path) (ok : Bool) : Except String (List Path) :=
  if p ∉ fs then Except.error "FileNotFoundError"
  else if ok then Except.ok (fsRemove fs p) else Except.error "OSError"

/-- The per-path body of `do_cleanup` (also the failure branch of
`download_file`): `if os.path.exists(p): try unlink, on error log`. -/
def cleanupOne (unlinkOk : Path → Bool) (fs : List Path) (p : Path) : List Path :=
  if p ∈ fs then
    match os_unlink fs p (unlinkOk p) with
    | Except.ok fs1 => fs1
    | Except.error _ => fs
  else fs

/-- `do_cleanup` over the whole path list. -/
def do_cleanup (fs : List Path) (paths : List Path) (unlinkOk : Path → Bool) : List Path :=
  paths.foldl (cleanupOne unlinkOk) fs

/-- `do_cleanup` with the per-path exception handling made explicit in
the type: an uncaught error in a loop iteration would abort the loop
and surface as `Except.error`. -/
def do_cleanupE (fs : List Path) (paths : List Path) (unlinkOk : Path → Bool) :
    Except String (List Path) :=
  match paths with
  | [] => Except.ok fs
  | p :: ps =>
      match (if p ∈ fs then
          match os_unlink fs p (unlinkOk p) with
          | Except.ok f1 => Except.ok f1
          | Except.error _ => Except.ok fs
        else Except.ok fs) with
      | Except.ok f1 => do_cleanupE f1 ps unlinkOk
      | Except.error e => Except.error e

/-- `cleanup_files(paths, delay)`: with `delay = 0` the deletions run
synchronously before the call returns; with `delay > 0` a background
worker is spawned and the call returns at once.  The second component
is the list handed to the deferred worker. -/
def cleanup_files (fs : List Path) (paths : List Path) (delay : Int) (unlinkOk : Path → Bool) :
    List Path × List Path :=
  if delay > 0 then (fs, paths) else (do_cleanup fs paths unlinkOk, [])

/-- Filename derivation of `download_file`: keep the URL basename when
it has an extension (the dot-membership test of the code), else
synthesize `<time>_<kind>_<uuid8><ext>`. -/
def deriveFilename (urlBase : String) (fileType : String) (now : Int) (uuid8 : String) : String :=
  if urlBase = "" ∨ '.' ∉ urlBase.data then
    toString now ++ "_" ++ fileType ++ "_" ++ uuid8 ++
      (if fileType = "audio" then ".mp3" else ".mp4")
  else urlBase

/-- `local_path = os.path.join(duix_data_dir, filename)`. -/
def stagedPath (dataDir : Path) (urlBase fileType : String) (now : Int) (uuid8 : String) : Path :=
  dataDir ++ [deriveFilename urlBase fileType now uuid8]

/-- How a download attempt can go: success, failure before any byte is
written, or failure in mid-write leaving an incomplete file. -/
inductive DlOutcome
  | success
  | failNoWrite
  | failMidWrite
deriving DecidableEq

/-- Result of `download_file`: the filesystem afterwards and the
returned local path (`none` encodes the raised staging error). -/
structure DlOut where
  fs : List Path
  result : Option Path
deriving DecidableEq

/-- `download_file` at a fixed target path: on success the file is
created and the path returned; on failure the code deletes whatever
sits at the target path (guarded by an exists check, unlink errors
logged and swallowed) and raises a staging error (`result = none`). -/
def download_file (fs : List Path) (localPath : Path) (outcome : DlOutcome)
    (unlinkOk : Path → Bool) : DlOut :=
  match outcome with
  | DlOutcome.success => { fs := fsAdd fs localPath, result := some localPath }
  | DlOutcome.failNoWrite =>
      { fs := cleanupOne unlinkOk fs localPath, result := none }
  | DlOutcome.failMidWrite =>
      { fs := cleanupOne unlinkOk (fsAdd fs localPath) localPath, result := none }

/-- Engine reply: HTTP status and the `code` field of the JSON body. -/
structure EngineResp where
  status : Int
  code : Int
deriving DecidableEq

/-- Environment of one `submit_task` run: whether each download
succeeds and what the engine call returns (`none` = the request
itself raised). -/
structure SubmitEnv where
  audioOk : Bool
  videoOk : Bool
  engine : Option EngineResp
deriving DecidableEq

/-- Result of `submit_task`: the filesystem and registry afterwards
and the returned task code (`none` encodes the raised error). -/
structure SubmitOut where
  fs : List Path
  registry : Registry
  task_code : Option String
deriving DecidableEq

/-- The record inserted on successful submission. -/
def mkTaskInfo (audio video : Path) (t : Int) : TaskInfo :=
  { audio_local := audio, video_local := video, result_file := none,
    created_time := t, result_retrieved_time := none }

/-- `submit_task`: stage audio then video, call the engine, and only on
full success insert the record.  On any failure after staging, the
staged files are cleaned up synchronously (`cleanup_files` with the
default zero delay) and no record is inserted. -/
def submit_task (fs : List Path) (r : Registry) (audioPath videoPath : Path) (tc : String)
    (now : Int) (env : SubmitEnv) (unlinkOk : Path → Bool) : SubmitOut :=
  if env.audioOk then
    let fs1 := fsAdd fs audioPath
    if env.videoOk then
      let fs2 := fsAdd fs1 videoPath
      match env.engine with
      | none =>
          { fs := do_cleanup fs2 [audioPath, videoPath] unlinkOk, registry := r,
            task_code := none }
      | some resp =>
          if resp.status ≠ 200 ∨ resp.code ≠ 10000 then
            { fs := do_cleanup fs2 [audioPath, videoPath] unlinkOk, registry := r,
              task_code := none }
          else
            { fs := fs2,
              registry := (tc, mkTaskInfo audioPath videoPath now) :: r,
              task_code := some tc }
    else
      { fs := do_cleanup fs1 [audioPath] unlinkOk, registry := r, task_code := none }
  else
    { fs := fs, registry := r, task_code := none }

/-- Result of `get_result`: the immediate filesystem and registry, the
list handed to the deferred reclaimer, the job whose deferred record
removal was scheduled, and whether the fetch succeeded (returning the
result bytes). -/
structure GetResultOut where
  fs : List Path
  registry : Registry
  scheduled : List Path
  scheduledRemoval : Option String
  success : Bool
deriving DecidableEq

/-- `get_result`: read the result from the `temp` subdirectory, build
the cleanup list (result file plus, when the job is known, its input
files), record the result file on the job, and schedule deferred
cleanup.  An unknown `task_code` only logs a warning. -/
def get_result (fs : List Path) (r : Registry) (dataDir : Path) (result_filename : String)
    (task_code : Option String) (now : Int) : GetResultOut :=
  let output_path := dataDir ++ ["temp", result_filename]
  if output_path ∉ fs then
    { fs := fs, registry := r, scheduled := [], scheduledRemoval := none, success := false }
  else
    match task_code with
    | none =>
        { fs := fs, registry := r, scheduled := [output_path], scheduledRemoval := none,
          success := true }
    | some tc =>
        match lookupTask r tc with
        | none =>
            { fs := fs, registry := r, scheduled := [output_path], scheduledRemoval := some tc,
              success := true }
        | some ti =>
            { fs := fs,
              registry := updateTask r tc
                { ti with result_file := some output_path, result_retrieved_time := some now },
              scheduled := [output_path] ++
                (if ti.audio_local ≠ [] then [ti.audio_local] else []) ++
                  (if ti.video_local ≠ [] then [ti.video_local] else []),
              scheduledRemoval := some tc,
              success := true }

/-- The storage directory on disk: regular files directly at top level
and files inside the `temp` subdirectory, each with a modification
time. -/
structure Disk where
  topFiles : List (String × Int)
  tempFiles : List (String × Int)
deriving DecidableEq

/-- `Path(duix_data_dir).iterdir()`: the top-level regular files plus
the `temp` subdirectory entry (not a regular file); the contents of
`temp` are not listed. -/
def iterdirEntries (dataDir : Path) (d : Disk) : List FileEntry :=
  d.topFiles.map (fun nm => { path := dataDir ++ [nm.1], isFile := true, mtime := nm.2 })
    ++ [{ path := dataDir ++ ["temp"], isFile := false, mtime := 0 }]

/-- Effect of `os.unlink p` on the storage directory. -/
def diskErase (dataDir : Path) (d : Disk) (p : Path) : Disk :=
  { topFiles := d.topFiles.filter (fun nm => dataDir ++ [nm.1] ≠ p)
    tempFiles := d.tempFiles.filter (fun nm => dataDir ++ ["temp", nm.1] ≠ p) }

/-- A sweep pass applied to the on-disk directory. -/
def sweepDisk (r : Registry) (dataDir : Path) (d : Disk) (now grace maxAge : Int)
    (unlinkOk : Path → Bool) : Disk :=
  ((periodic_cleanup r (iterdirEntries dataDir d) now grace maxAge unlinkOk).deleted.map
    FileEntry.path).foldl (diskErase dataDir) d

/-- Registry transitions generated by the service's operations: record
creation after successful submission (with paths derived as in
`download_file`), result attachment by `get_result`, deferred record
removal, and sweep expiry. -/
inductive RegStep (dataDir : Path) : Registry → Registry → Prop
  | create (r : Registry) (jobId aBase vBase aU vU : String) (tA tV tRec : Int)
      (hFresh : lookupTask r jobId = none) :
      RegStep dataDir r
        ((jobId, mkTaskInfo (stagedPath dataDir aBase "audio" tA aU)
            (stagedPath dataDir vBase "video" tV vU) tRec) :: r)
  | attach (r : Registry) (jobId : String) (ti : TaskInfo) (filename : String) (t : Int)
      (hFound : lookupTask r jobId = some ti) :
      RegStep dataDir r
        (updateTask r jobId
          { ti with result_file := some (dataDir ++ ["temp", filename]),
                    result_retrieved_time := some t })
  | remove (r : Registry) (jobId : String) :
      RegStep dataDir r (removeJob r jobId)
  | expire (r : Registry) (now maxAge : Int) :
      RegStep dataDir r (expireRecords r now maxAge)

/-- Registry states reachable from the empty table. -/
def ReachableReg (dataDir : Path) (r : Registry) : Prop :=
  Relation.ReflTransGen (RegStep dataDir) [] r

/-- No file path is shared between two records with distinct job ids. -/
def pathsDisjoint (r : Registry) : Prop :=
  ∀ p q, p ∈ r → q ∈ r → p.1 ≠ q.1 →
    ∀ f, f ∈ recordFiles p.2 → f ∉ recordFiles q.2

/-- Spec wording: a record's `inputFiles`. -/
def inputFiles (ti : TaskInfo) : List Path :=
  [ti.audio_local, ti.video_local]

/-- Written from the spec sentence for `activeFileSet()`: the union of
every `inputFiles` entry, and `resultFile` if set, across all current
records. -/
def specActiveFileSet (r : Registry) (f : Path) : Prop :=
  ∃ p, p ∈ r ∧ (f ∈ inputFiles p.2 ∨ p.2.result_file = some f)

/-- Reachable-state well-formedness: stored paths are non-empty (they
are all of the form `dataDir ++ [...]`). -/
def wfRegistry (r : Registry) : Prop :=
  ∀ p, p ∈ r → p.2.audio_local ≠ [] ∧ p.2.video_local ≠ [] ∧
    ∀ q, p.2.result_file = some q → q ≠ []

theorem activeFiles_cons (p : String × TaskInfo) (r : Registry) :
    activeFiles (p :: r) = recordFiles p.2 ++ activeFiles r := rfl

theorem mem_activeFiles {r : Registry} {f : Path} :
    f ∈ activeFiles r ↔ ∃ p, p ∈ r ∧ f ∈ recordFiles p.2 := by
  induction r with
  | nil => simp [activeFiles]
  | cons a r ih =>
      rw [activeFiles_cons, List.mem_append, ih]
      constructor
      · rintro (h | ⟨p, hp, hf⟩)
        · exact ⟨a, List.mem_cons_self a r, h⟩
        · exact ⟨p, List.mem_cons_of_mem a hp, hf⟩
      · rintro ⟨p, hp, hf⟩
        rcases List.mem_cons.mp hp with rfl | hp
        · exact Or.inl hf
        · exact Or.inr ⟨p, hp, hf⟩

theorem mem_deleted_iff {r : Registry} {entries : List FileEntry} {now grace maxAge : Int}
    {unlinkOk : Path → Bool} {e : FileEntry} :
    e ∈ (periodic_cleanup r entries now grace maxAge unlinkOk).deleted ↔
      e ∈ entries ∧ sweepDeletes (activeFiles r) now grace maxAge unlinkOk e = true := by
  simp [periodic_cleanup, List.mem_filter]

theorem mem_survivors_iff {r : Registry} {entries : List FileEntry} {now grace maxAge : Int}
    {unlinkOk : Path → Bool} {e : FileEntry} :
    e ∈ (periodic_cleanup r entries now grace maxAge unlinkOk).survivors ↔
      e ∈ entries ∧ sweepDeletes (activeFiles r) now grace maxAge unlinkOk e = false := by
  simp [periodic_cleanup, List.mem_filter]

theorem sweepShouldDelete_of_active {active : List Path} {now grace maxAge : Int}
    {e : FileEntry} (hact : e.path ∈ active) :
    sweepShouldDelete active now grace maxAge e = decide (now - e.mtime > maxAge) := by
  simp [sweepShouldDelete, hact]

theorem sweepShouldDelete_of_orphan {active : List Path} {now grace maxAge : Int}
    {e : FileEntry} (hact : e.path ∉ active) :
    sweepShouldDelete active now grace maxAge e = decide (now - e.mtime > grace) := by
  simp [sweepShouldDelete, hact]

/-- Entry used by several concrete witnesses: an input file of the
sample job below. -/
def wEntryA : FileEntry := { path := ["code", "data", "a.mp3"], isFile := true, mtime := 0 }

/-- Entry used by several concrete witnesses: a file referenced by no
record. -/
def wEntryB : FileEntry := { path := ["code", "data", "orphan.bin"], isFile := true, mtime := 0 }

/-- Record used by several concrete witnesses. -/
def wTiA : TaskInfo := mkTaskInfo ["code", "data", "a.mp3"] ["code", "data", "b.mp4"] 0

/-- Registry used by several concrete witnesses: one job owning
`a.mp3` and `b.mp4`. -/
def wRegA : Registry := [("job1", wTiA)]

/-- C1: a file in the active-set snapshot of the pass is deleted only
when its age (pass start time minus mtime) exceeds the maximum age;
a file absent from the snapshot is deleted once its age exceeds the
grace threshold, no matter how old it is. -/
theorem sweep_respects_active_snapshot
    (r : Registry) (entries : List FileEntry) (now grace maxAge : Int)
    (unlinkOk : Path → Bool) (e : FileEntry) (he : e ∈ entries) :
    (e.path ∈ activeFiles r →
      e ∈ (periodic_cleanup r entries now grace maxAge unlinkOk).deleted →
        now - e.mtime > maxAge) ∧
    (e.path ∉ activeFiles r → e.isFile = true → unlinkOk e.path = true →
      now - e.mtime > grace →
        e ∈ (periodic_cleanup r entries now grace maxAge unlinkOk).deleted) := by
  constructor
  · intro hact hdel
    have h := (mem_deleted_iff.mp hdel).2
    rw [sweepDeletes, sweepShouldDelete_of_active hact] at h
    simp [Bool.and_eq_true] at h
    exact h.1.2
  · intro hact hfile hok hage
    refine mem_deleted_iff.mpr ⟨he, ?_⟩
    rw [sweepDeletes, sweepShouldDelete_of_orphan hact]
    simp [hfile, hok, hage]

/-- Closed instance of `sweep_respects_active_snapshot`. -/
theorem sweep_respects_active_snapshot_witness :
    wEntryA ∈ [wEntryA, wEntryB] ∧
    ((wEntryA.path ∈ activeFiles wRegA →
        wEntryA ∈ (periodic_cleanup wRegA [wEntryA, wEntryB] 100 60 7200 (fun _ => true)).deleted →
          100 - wEntryA.mtime > 7200) ∧
      (wEntryA.path ∉ activeFiles wRegA → wEntryA.isFile = true →
        (fun _ => true) wEntryA.path = true → 100 - wEntryA.mtime > 60 →
          wEntryA ∈
            (periodic_cleanup wRegA [wEntryA, wEntryB] 100 60 7200 (fun _ => true)).deleted)) :=
  ⟨by decide,
    sweep_respects_active_snapshot wRegA [wEntryA, wEntryB] 100 60 7200 (fun _ => true) wEntryA
      (by decide)⟩

/-- C3: a regular top-level file outside the active set is deleted by
the pass (and counted as an orphan) exactly when its age exceeds the
grace threshold; at or below the grace threshold it survives. -/
theorem sweep_orphan_grace
    (r : Registry) (entries : List FileEntry) (now grace maxAge : Int)
    (unlinkOk : Path → Bool) (e : FileEntry)
    (he : e ∈ entries) (hfile : e.isFile = true)
    (hact : e.path ∉ activeFiles r) (hok : unlinkOk e.path = true) :
    (e ∈ (periodic_cleanup r entries now grace maxAge unlinkOk).deleted ↔
      now - e.mtime > grace) ∧
    (now - e.mtime ≤ grace →
      e ∈ (periodic_cleanup r entries now grace maxAge unlinkOk).survivors) ∧
    (now - e.mtime > grace →
      0 < (periodic_cleanup r entries now grace maxAge unlinkOk).stats.orphan_files) := by
  refine ⟨?_, ?_, ?_⟩
  · rw [mem_deleted_iff]
    constructor
    · rintro ⟨-, h⟩
      rw [sweepDeletes, sweepShouldDelete_of_orphan hact] at h
      simp [Bool.and_eq_true] at h
      exact h.1.2
    · intro hage
      refine ⟨he, ?_⟩
      rw [sweepDeletes, sweepShouldDelete_of_orphan hact]
      simp [hfile, hok, hage]
  · intro hage
    refine mem_survivors_iff.mpr ⟨he, ?_⟩
    rw [sweepDeletes, sweepShouldDelete_of_orphan hact]
    simp [hfile, hok]
    omega
  · intro hage
    have hmem : e ∈ entries.filter (fun e =>
        e.isFile && decide (e.path ∉ activeFiles r) && decide (now - e.mtime > grace)) := by
      rw [List.mem_filter]
      exact ⟨he, by simp [hfile, hact, hage]⟩
    have hne := List.ne_nil_of_mem hmem
    have := List.length_pos.mpr hne
    simpa [periodic_cleanup] using this

/-- Closed instance of `sweep_orphan_grace`. -/
theorem sweep_orphan_grace_witness :
    wEntryB ∈ [wEntryA, wEntryB] ∧ wEntryB.isFile = true ∧
    wEntryB.path ∉ activeFiles wRegA ∧ (fun _ => true) wEntryB.path = true ∧
    ((wEntryB ∈ (periodic_cleanup wRegA [wEntryA, wEntryB] 100 60 7200 (fun _ => true)).deleted ↔
        100 - wEntryB.mtime > 60) ∧
      (100 - wEntryB.mtime ≤ 60 →
        wEntryB ∈ (periodic_cleanup wRegA [wEntryA, wEntryB] 100 60 7200 (fun _ => true)).survivors) ∧
      (100 - wEntryB.mtime > 60 →
        0 < (periodic_cleanup wRegA [wEntryA, wEntryB] 100 60 7200 (fun _ => true)).stats.orphan_files)) :=
  ⟨by decide, by decide, by decide, by decide,
    sweep_orphan_grace wRegA [wEntryA, wEntryB] 100 60 7200 (fun _ => true) wEntryB
      (by decide) (by decide) (by decide) (by decide)⟩

theorem mem_recordFiles_iff {ti : TaskInfo} {f : Path}
    (ha : ti.audio_local ≠ []) (hv : ti.video_local ≠ [])
    (hr : ∀ q, ti.result_file = some q → q ≠ []) :
    f ∈ recordFiles ti ↔ (f ∈ inputFiles ti ∨ ti.result_file = some f) := by
  unfold recordFiles inputFiles
  rcases hres : ti.result_file with _ | q
  · simp [ha, hv, hres]
  · have hq : q ≠ [] := hr q hres
    simp [ha, hv, hres, hq]
    constructor
    · rintro (h | h | h) <;> simp [h]
    · rintro ((h | h) | h) <;> simp [h]

/-- C2: outside mutations, `active_files` holds exactly the union over
all records of the record's input paths plus its result path when
set.  The hypothesis states reachable-state well-formedness: stored
paths are non-empty strings. -/
theorem activeFiles_spec_equiv (r : Registry) (hwf : wfRegistry r) (f : Path) :
    f ∈ activeFiles r ↔ specActiveFileSet r f := by
  rw [mem_activeFiles]
  unfold specActiveFileSet
  constructor
  · rintro ⟨p, hp, hf⟩
    rcases hwf p hp with ⟨ha, hv, hr⟩
    exact ⟨p, hp, (mem_recordFiles_iff ha hv hr).mp hf⟩
  · rintro ⟨p, hp, hf⟩
    rcases hwf p hp with ⟨ha, hv, hr⟩
    exact ⟨p, hp, (mem_recordFiles_iff ha hv hr).mpr hf⟩

theorem wRegA_wf : wfRegistry wRegA := by
  intro p hp
  rw [wRegA, List.mem_singleton] at hp
  subst hp
  exact ⟨by decide, by decide, fun q hq => by simp [wTiA, mkTaskInfo] at hq⟩

/-- Closed instance of `activeFiles_spec_equiv`. -/
theorem activeFiles_spec_equiv_witness :
    wfRegistry wRegA ∧
    ((["code", "data", "a.mp3"] : Path) ∈ activeFiles wRegA ↔
      specActiveFileSet wRegA ["code", "data", "a.mp3"]) :=
  ⟨wRegA_wf, activeFiles_spec_equiv wRegA wRegA_wf ["code", "data", "a.mp3"]⟩

/-- Record whose creation time equals the pass start below (record age
zero) but whose input file on disk is very old. -/
def wTiOld : TaskInfo := mkTaskInfo ["code", "data", "a.mp3"] ["code", "data", "b.mp4"] 10000

/-- Registry holding only `wTiOld`. -/
def wRegC : Registry := [("job1", wTiOld)]

/-- An input file of `wTiOld` whose mtime age (10000) exceeds the
maximum age 7200 even though the record's age is zero. -/
def wEntryOld : FileEntry := { path := ["code", "data", "a.mp3"], isFile := true, mtime := 0 }

/-- C4 as stated is false on the code: the sweep's deletion test for
active files compares the FILE's mtime age with the maximum age, not
the record's creation timestamp.  Here the record is brand new
(created at the pass start, age 0 ≤ maxAge) yet its file, with an old
mtime, is deleted by the pass. -/
theorem sweep_record_age_claim_false :
    ¬ (∀ (r : Registry) (entries : List FileEntry) (now grace maxAge : Int)
        (unlinkOk : Path → Bool) (tc : String) (ti : TaskInfo) (e : FileEntry),
        (tc, ti) ∈ r → e ∈ entries → e.path ∈ recordFiles ti →
        now - ti.created_time ≤ maxAge →
        e ∉ (periodic_cleanup r entries now grace maxAge unlinkOk).deleted) := by
  intro h
  exact h wRegC [wEntryOld] 10000 60 7200 (fun _ => true) "job1" wTiOld wEntryOld
    (by decide) (by decide) (by decide) (by decide) (by decide)

/-- C4 amended: while a record exists and a file of its is in the
active set, the sweep never deletes that file unless the file's own
age (now − mtime) exceeds the maximum age; the record itself survives
the pass's expiry exactly when its creation-timestamp age is within
the maximum age. -/
theorem sweep_record_files_protected
    (r : Registry) (entries : List FileEntry) (now grace maxAge : Int)
    (unlinkOk : Path → Bool) (tc : String) (ti : TaskInfo) (e : FileEntry)
    (hr : (tc, ti) ∈ r) (he : e ∈ entries) (hf : e.path ∈ recordFiles ti)
    (hage : now - e.mtime ≤ maxAge) :
    e ∉ (periodic_cleanup r entries now grace maxAge unlinkOk).deleted ∧
    e ∈ (periodic_cleanup r entries now grace maxAge unlinkOk).survivors ∧
    ((tc, ti) ∈ (periodic_cleanup r entries now grace maxAge unlinkOk).registry ↔
      now - ti.created_time ≤ maxAge) := by
  have hact : e.path ∈ activeFiles r := mem_activeFiles.mpr ⟨(tc, ti), hr, hf⟩
  have hsd : sweepDeletes (activeFiles r) now grace maxAge unlinkOk e = false := by
    rw [sweepDeletes, sweepShouldDelete_of_active hact]
    have hdec : decide (now - e.mtime > maxAge) = false := decide_eq_false (by omega)
    simp [hdec]
  refine ⟨?_, mem_survivors_iff.mpr ⟨he, hsd⟩, ?_⟩
  · intro hdel
    have := (mem_deleted_iff.mp hdel).2
    rw [this] at hsd
    exact Bool.true_eq_false.mp hsd
  · have hreg : (periodic_cleanup r entries now grace maxAge unlinkOk).registry =
        expireRecords r now maxAge := rfl
    rw [hreg, expireRecords]
    constructor
    · intro hmem
      have := (List.mem_filter.mp hmem).2
      simpa using this
    · intro hle
      exact List.mem_filter.mpr ⟨hr, by simpa using hle⟩

/-- Closed instance of `sweep_record_files_protected`. -/
theorem sweep_record_files_protected_witness :
    ("job1", wTiA) ∈ wRegA ∧ wEntryA ∈ [wEntryA, wEntryB] ∧
    wEntryA.path ∈ recordFiles wTiA ∧ 100 - wEntryA.mtime ≤ 7200 ∧
    (wEntryA ∉ (periodic_cleanup wRegA [wEntryA, wEntryB] 100 60 7200 (fun _ => true)).deleted ∧
      wEntryA ∈ (periodic_cleanup wRegA [wEntryA, wEntryB] 100 60 7200 (fun _ => true)).survivors ∧
      (("job1", wTiA) ∈ (periodic_cleanup wRegA [wEntryA, wEntryB] 100 60 7200 (fun _ => true)).registry ↔
        100 - wTiA.created_time ≤ 7200)) :=
  ⟨by decide, by decide, by decide, by decide,
    sweep_record_files_protected wRegA [wEntryA, wEntryB] 100 60 7200 (fun _ => true) "job1" wTiA
      wEntryA (by decide) (by decide) (by decide) (by decide)⟩

theorem mem_fsRemove {fs : List Path} {p q : Path} :
    q ∈ fsRemove fs p ↔ q ∈ fs ∧ q ≠ p := by
  simp [fsRemove]

theorem not_mem_fsRemove_self (fs : List Path) (p : Path) : p ∉ fsRemove fs p := by
  simp [mem_fsRemove]

theorem cleanupOne_eq (unlinkOk : Path → Bool) (fs : List Path) (p : Path) :
    cleanupOne unlinkOk fs p =
      if p ∈ fs ∧ unlinkOk p = true then fsRemove fs p else fs := by
  unfold cleanupOne os_unlink
  by_cases hp : p ∈ fs
  · by_cases ho : unlinkOk p = true
    · simp [hp, ho]
    · simp [hp, ho]
  · simp [hp]

theorem cleanupOne_subset {unlinkOk : Path → Bool} {fs : List Path} {p q : Path}
    (h : q ∈ cleanupOne unlinkOk fs p) : q ∈ fs := by
  rw [cleanupOne_eq] at h
  by_cases hc : p ∈ fs ∧ unlinkOk p = true
  · rw [if_pos hc] at h
    exact (mem_fsRemove.mp h).1
  · rwa [if_neg hc] at h

theorem not_mem_cleanupOne_self {unlinkOk : Path → Bool} {fs : List Path} {p : Path}
    (hok : unlinkOk p = true) : p ∉ cleanupOne unlinkOk fs p := by
  rw [cleanupOne_eq]
  by_cases hc : p ∈ fs ∧ unlinkOk p = true
  · rw [if_pos hc]
    exact not_mem_fsRemove_self fs p
  · rw [if_neg hc]
    intro hp
    exact hc ⟨hp, hok⟩

theorem do_cleanup_nil (fs : List Path) (unlinkOk : Path → Bool) :
    do_cleanup fs [] unlinkOk = fs := rfl

theorem do_cleanup_cons (fs : List Path) (a : Path) (ps : List Path) (unlinkOk : Path → Bool) :
    do_cleanup fs (a :: ps) unlinkOk = do_cleanup (cleanupOne unlinkOk fs a) ps unlinkOk := rfl

theorem do_cleanup_subset {unlinkOk : Path → Bool} {paths : List Path} {fs : List Path} {q : Path}
    (h : q ∈ do_cleanup fs paths unlinkOk) : q ∈ fs := by
  induction paths generalizing fs with
  | nil => exact h
  | cons a ps ih =>
      rw [do_cleanup_cons] at h
      exact cleanupOne_subset (ih h)

theorem not_mem_do_cleanup {unlinkOk : Path → Bool} {paths : List Path} {fs : List Path}
    {p : Path} (hp : p ∈ paths) (hok : unlinkOk p = true) :
    p ∉ do_cleanup fs paths unlinkOk := by
  induction paths generalizing fs with
  | nil => cases hp
  | cons a ps ih =>
      rw [do_cleanup_cons]
      rcases List.mem_cons.mp hp with rfl | hp
      · intro hmem
        exact not_mem_cleanupOne_self hok (do_cleanup_subset hmem)
      · exact ih hp

theorem do_cleanupE_step (unlinkOk : Path → Bool) (f : List Path) (p : Path) :
    (if p ∈ f then
        match os_unlink f p (unlinkOk p) with
        | Except.ok f1 => Except.ok f1
        | Except.error _ => Except.ok f
      else (Except.ok f : Except String (List Path))) = Except.ok (cleanupOne unlinkOk f p) := by
  unfold cleanupOne
  by_cases hp : p ∈ f
  · rw [if_pos hp, if_pos hp]
    cases os_unlink f p (unlinkOk p) <;> rfl
  · rw [if_neg hp, if_neg hp]

theorem do_cleanupE_eq (fs : List Path) (paths : List Path) (unlinkOk : Path → Bool) :
    do_cleanupE fs paths unlinkOk = Except.ok (do_cleanup fs paths unlinkOk) := by
  induction paths generalizing fs with
  | nil => rfl
  | cons a ps ih =>
      rw [do_cleanup_cons]
      unfold do_cleanupE
      rw [do_cleanupE_step]
      exact ih (cleanupOne unlinkOk fs a)

/-- C8: the cleanup loop never lets an error escape — in particular a
listed path that does not exist on disk is silently skipped — and
with delay zero every deletion is applied synchronously in the state
returned by `cleanup_files`; a path whose deletion succeeds is absent
from that state. -/
theorem cleanup_files_total_sync
    (fs : List Path) (paths : List Path) (unlinkOk : Path → Bool) (p : Path)
    (hp : p ∈ paths) (hok : unlinkOk p = true) :
    do_cleanupE fs paths unlinkOk = Except.ok (do_cleanup fs paths unlinkOk) ∧
    cleanup_files fs paths 0 unlinkOk = (do_cleanup fs paths unlinkOk, []) ∧
    p ∉ (cleanup_files fs paths 0 unlinkOk).1 := by
  refine ⟨do_cleanupE_eq fs paths unlinkOk, rfl, ?_⟩
  exact not_mem_do_cleanup hp hok

/-- Closed instance of `cleanup_files_total_sync`, scheduling the
deletion of a path that does not exist in the empty filesystem. -/
theorem cleanup_files_total_sync_witness :
    (["code", "data", "ghost.bin"] : Path) ∈ [(["code", "data", "ghost.bin"] : Path)] ∧
    (fun (_ : Path) => true) ["code", "data", "ghost.bin"] = true ∧
    (do_cleanupE [] [["code", "data", "ghost.bin"]] (fun _ => true) =
        Except.ok (do_cleanup [] [["code", "data", "ghost.bin"]] (fun _ => true)) ∧
      cleanup_files [] [["code", "data", "ghost.bin"]] 0 (fun _ => true) =
        (do_cleanup [] [["code", "data", "ghost.bin"]] (fun _ => true), []) ∧
      (["code", "data", "ghost.bin"] : Path) ∉
        (cleanup_files [] [["code", "data", "ghost.bin"]] 0 (fun _ => true)).1) :=
  ⟨by decide, by decide,
    cleanup_files_total_sync [] [["code", "data", "ghost.bin"]] (fun _ => true)
      ["code", "data", "ghost.bin"] (by decide) (by decide)⟩

/-- C7: on any download failure, whatever sits at the target path is
deleted before the staging error is surfaced; the call reports the
staging error (never an unlink error) whether or not that deletion
succeeds. -/
theorem download_file_failure_cleanup
    (fs : List Path) (localPath : Path) (outcome : DlOutcome) (unlinkOk : Path → Bool)
    (hfail : outcome ≠ DlOutcome.success) :
    (download_file fs localPath outcome unlinkOk).result = none ∧
    (unlinkOk localPath = true →
      localPath ∉ (download_file fs localPath outcome unlinkOk).fs) := by
  cases outcome with
  | success => exact absurd rfl hfail
  | failNoWrite => exact ⟨rfl, fun hok => not_mem_cleanupOne_self hok⟩
  | failMidWrite => exact ⟨rfl, fun hok => not_mem_cleanupOne_self hok⟩

/-- Closed instance of `download_file_failure_cleanup`: a download that
fails in mid-write. -/
theorem download_file_failure_cleanup_witness :
    DlOutcome.failMidWrite ≠ DlOutcome.success ∧
    ((download_file [] ["code", "data", "x.mp4"] DlOutcome.failMidWrite (fun _ => true)).result =
        none ∧
      ((fun (_ : Path) => true) ["code", "data", "x.mp4"] = true →
        (["code", "data", "x.mp4"] : Path) ∉
          (download_file [] ["code", "data", "x.mp4"] DlOutcome.failMidWrite (fun _ => true)).fs)) :=
  ⟨by decide,
    download_file_failure_cleanup [] ["code", "data", "x.mp4"] DlOutcome.failMidWrite
      (fun _ => true) (by decide)⟩

/-- C6: when submission fails after staging began — the video download
fails, the engine request raises, the engine answers a non-200 status,
or it answers a body code other than 10000 — every already-staged file
is deleted synchronously before the error is surfaced, and the
registry is exactly as before the call (no record for this submission
exists). -/
theorem submit_task_failure_cleanup
    (fs : List Path) (r : Registry) (audioPath videoPath : Path) (tc : String) (now : Int)
    (env : SubmitEnv) (unlinkOk : Path → Bool)
    (hA : env.audioOk = true)
    (hokA : unlinkOk audioPath = true) (hokV : unlinkOk videoPath = true)
    (hfail : env.videoOk = false ∨ env.engine = none ∨
      (∃ resp, env.engine = some resp ∧ (resp.status ≠ 200 ∨ resp.code ≠ 10000))) :
    (submit_task fs r audioPath videoPath tc now env unlinkOk).task_code = none ∧
    (submit_task fs r audioPath videoPath tc now env unlinkOk).registry = r ∧
    audioPath ∉ (submit_task fs r audioPath videoPath tc now env unlinkOk).fs ∧
    (env.videoOk = true →
      videoPath ∉ (submit_task fs r audioPath videoPath tc now env unlinkOk).fs) := by
  obtain ⟨aOk, vOk, eng⟩ := env
  cases aOk with
  | false => exact absurd hA Bool.false_ne_true
  | true =>
      cases vOk with
      | false =>
          refine ⟨rfl, rfl, ?_, fun hcontra => Bool.noConfusion hcontra⟩
          show audioPath ∉ do_cleanup (fsAdd fs audioPath) [audioPath] unlinkOk
          exact not_mem_do_cleanup (List.mem_singleton.mpr rfl) hokA
      | true =>
          cases eng with
          | none =>
              refine ⟨rfl, rfl, ?_, fun _ => ?_⟩
              · show audioPath ∉
                  do_cleanup (fsAdd (fsAdd fs audioPath) videoPath) [audioPath, videoPath] unlinkOk
                exact not_mem_do_cleanup (List.mem_cons_self _ _) hokA
              · show videoPath ∉
                  do_cleanup (fsAdd (fsAdd fs audioPath) videoPath) [audioPath, videoPath] unlinkOk
                exact not_mem_do_cleanup (List.mem_cons_of_mem _ (List.mem_singleton.mpr rfl)) hokV
          | some resp =>
              have hbad : resp.status ≠ 200 ∨ resp.code ≠ 10000 := by
                rcases hfail with h | h | ⟨resp1, h1, h2⟩
                · exact Bool.noConfusion h
                · exact Option.noConfusion h
                · cases Option.some.inj h1
                  exact h2
              have hsplit : submit_task fs r audioPath videoPath tc now
                  (SubmitEnv.mk true true (some resp)) unlinkOk =
                  if resp.status ≠ 200 ∨ resp.code ≠ 10000 then
                    { fs := do_cleanup (fsAdd (fsAdd fs audioPath) videoPath)
                        [audioPath, videoPath] unlinkOk,
                      registry := r, task_code := none }
                  else
                    { fs := fsAdd (fsAdd fs audioPath) videoPath,
                      registry := (tc, mkTaskInfo audioPath videoPath now) :: r,
                      task_code := some tc } := rfl
              rw [hsplit, if_pos hbad]
              exact ⟨rfl, rfl,
                not_mem_do_cleanup (List.mem_cons_self _ _) hokA,
                fun _ =>
                  not_mem_do_cleanup (List.mem_cons_of_mem _ (List.mem_singleton.mpr rfl)) hokV⟩

/-- Closed instance of `submit_task_failure_cleanup`: the audio
download succeeds and the video download fails. -/
theorem submit_task_failure_cleanup_witness :
    (SubmitEnv.mk true false none).audioOk = true ∧
    (fun (_ : Path) => true) ["code", "data", "a.mp3"] = true ∧
    (fun (_ : Path) => true) ["code", "data", "b.mp4"] = true ∧
    ((SubmitEnv.mk true false none).videoOk = false ∨
      (SubmitEnv.mk true false none).engine = none ∨
      (∃ resp, (SubmitEnv.mk true false none).engine = some resp ∧
        (resp.status ≠ 200 ∨ resp.code ≠ 10000))) ∧
    ((submit_task [] [] ["code", "data", "a.mp3"] ["code", "data", "b.mp4"] "t1" 0
        (SubmitEnv.mk true false none) (fun _ => true)).task_code = none ∧
      (submit_task [] [] ["code", "data", "a.mp3"] ["code", "data", "b.mp4"] "t1" 0
        (SubmitEnv.mk true false none) (fun _ => true)).registry = [] ∧
      (["code", "data", "a.mp3"] : Path) ∉
        (submit_task [] [] ["code", "data", "a.mp3"] ["code", "data", "b.mp4"] "t1" 0
          (SubmitEnv.mk true false none) (fun _ => true)).fs ∧
      ((SubmitEnv.mk true false none).videoOk = true →
        (["code", "data", "b.mp4"] : Path) ∉
          (submit_task [] [] ["code", "data", "a.mp3"] ["code", "data", "b.mp4"] "t1" 0
            (SubmitEnv.mk true false none) (fun _ => true)).fs)) :=
  ⟨by decide, by decide, by decide, Or.inl rfl,
    submit_task_failure_cleanup [] [] ["code", "data", "a.mp3"] ["code", "data", "b.mp4"] "t1" 0
      (SubmitEnv.mk true false none) (fun _ => true) (by decide) (by decide) (by decide)
      (Or.inl rfl)⟩

theorem removeJob_of_lookup_none {r : Registry} {tc : String} (h : lookupTask r tc = none) :
    removeJob r tc = r := by
  induction r with
  | nil => rfl
  | cons p r ih =>
      rw [lookupTask] at h
      by_cases hp : p.1 = tc
      · rw [if_pos hp] at h
        cases h
      · rw [if_neg hp] at h
        have ih1 := ih h
        unfold removeJob at ih1 ⊢
        simp [hp, ih1]
        intro a b hab
        have h2 := List.filter_eq_self.mp ih1 (a, b) hab
        simpa using h2

/-- C9: fetching a result with a job identifier absent from the
registry still succeeds when the result file exists; only the result
file itself is scheduled for cleanup (the precise input-file cleanup
is skipped), the fetch leaves registry and filesystem untouched, and
the deferred record removal it schedules is a no-op. -/
theorem get_result_unknown_job
    (fs : List Path) (r : Registry) (dataDir : Path) (result_filename : String) (tc : String)
    (now : Int)
    (hfile : dataDir ++ ["temp", result_filename] ∈ fs)
    (habs : lookupTask r tc = none) :
    (get_result fs r dataDir result_filename (some tc) now).success = true ∧
    (get_result fs r dataDir result_filename (some tc) now).scheduled =
      [dataDir ++ ["temp", result_filename]] ∧
    (get_result fs r dataDir result_filename (some tc) now).registry = r ∧
    (get_result fs r dataDir result_filename (some tc) now).fs = fs ∧
    removeJob r tc = r := by
  have hred : get_result fs r dataDir result_filename (some tc) now =
      { fs := fs, registry := r, scheduled := [dataDir ++ ["temp", result_filename]],
        scheduledRemoval := some tc, success := true } := by
    simp only [get_result]
    rw [if_neg (not_not_intro hfile), habs]
  rw [hred]
  exact ⟨rfl, rfl, rfl, rfl, removeJob_of_lookup_none habs⟩

/-- Closed instance of `get_result_unknown_job`. -/
theorem get_result_unknown_job_witness :
    (["code", "data"] ++ ["temp", "out.mp4"] : Path) ∈ [(["code", "data", "temp", "out.mp4"] : Path)] ∧
    lookupTask wRegA "nope" = none ∧
    ((get_result [["code", "data", "temp", "out.mp4"]] wRegA ["code", "data"] "out.mp4"
        (some "nope") 0).success = true ∧
      (get_result [["code", "data", "temp", "out.mp4"]] wRegA ["code", "data"] "out.mp4"
        (some "nope") 0).scheduled = [["code", "data"] ++ ["temp", "out.mp4"]] ∧
      (get_result [["code", "data", "temp", "out.mp4"]] wRegA ["code", "data"] "out.mp4"
        (some "nope") 0).registry = wRegA ∧
      (get_result [["code", "data", "temp", "out.mp4"]] wRegA ["code", "data"] "out.mp4"
        (some "nope") 0).fs = [["code", "data", "temp", "out.mp4"]] ∧
      removeJob wRegA "nope" = wRegA) :=
  ⟨by decide, by decide,
    get_result_unknown_job [["code", "data", "temp", "out.mp4"]] wRegA ["code", "data"] "out.mp4"
      "nope" 0 (by decide) (by decide)⟩

theorem deleted_paths_top (r : Registry) (dataDir : Path) (d : Disk) (now grace maxAge : Int)
    (unlinkOk : Path → Bool) :
    ∀ p ∈ (periodic_cleanup r (iterdirEntries dataDir d) now grace maxAge unlinkOk).deleted.map
        FileEntry.path,
      ∃ nm, nm ∈ d.topFiles ∧ p = dataDir ++ [nm.1] := by
  intro p hp
  rw [List.mem_map] at hp
  obtain ⟨e, hdel, rfl⟩ := hp
  have h := mem_deleted_iff.mp hdel
  have hfile : e.isFile = true := by
    have h2 := h.2
    rw [sweepDeletes] at h2
    simp [Bool.and_eq_true] at h2
    exact h2.1.1
  have hmem := h.1
  rw [iterdirEntries, List.mem_append] at hmem
  rcases hmem with hm | hm
  · rw [List.mem_map] at hm
    obtain ⟨nm, hnm, he⟩ := hm
    exact ⟨nm, hnm, by rw [← he]⟩
  · rw [List.mem_singleton] at hm
    rw [hm] at hfile
    exact Bool.noConfusion hfile

theorem temp_path_ne_top (dataDir : Path) (x y z : String) :
    dataDir ++ [x, y] ≠ dataDir ++ [z] := by
  intro h
  have := congrArg List.length h
  simp at this

theorem foldl_diskErase_tempFiles (dataDir : Path) (d : Disk) (ps : List Path)
    (h : ∀ p ∈ ps, ∃ nm : String, p = dataDir ++ [nm]) :
    (ps.foldl (diskErase dataDir) d).tempFiles = d.tempFiles := by
  induction ps generalizing d with
  | nil => rfl
  | cons p ps ih =>
      rw [List.foldl_cons, ih _ (fun q hq => h q (List.mem_cons_of_mem _ hq))]
      obtain ⟨nm, rfl⟩ := h p (List.mem_cons_self _ _)
      show d.tempFiles.filter _ = d.tempFiles
      rw [List.filter_eq_self]
      intro m _
      exact decide_eq_true (temp_path_ne_top dataDir "temp" m.1 nm)

theorem get_result_scheduled_result (fs : List Path) (reg : Registry) (dataDir : Path)
    (fn : String) (tcOpt : Option String) (t : Int)
    (hfile : dataDir ++ ["temp", fn] ∈ fs) :
    dataDir ++ ["temp", fn] ∈ (get_result fs reg dataDir fn tcOpt t).scheduled := by
  cases tcOpt with
  | none =>
      simp only [get_result]
      rw [if_neg (not_not_intro hfile)]
      exact List.mem_singleton.mpr rfl
  | some tc =>
      simp only [get_result]
      rw [if_neg (not_not_intro hfile)]
      cases hl : lookupTask reg tc with
      | none => exact List.mem_singleton.mpr rfl
      | some ti =>
          exact List.mem_append_left _ (List.mem_append_left _ (List.mem_singleton.mpr rfl))

/-- C10: a sweep pass deletes only regular files directly at the top
level of the storage directory — each deleted path names a top-level
file — so the `temp` subdirectory and every file inside it survive
every pass, and a produced result file under `temp` is reclaimed only
through the deferred cleanup that `get_result` schedules for it. -/
theorem sweep_spares_temp
    (r : Registry) (dataDir : Path) (d : Disk) (now grace maxAge : Int) (unlinkOk : Path → Bool)
    (fs : List Path) (reg2 : Registry) (result_filename : String) (tcOpt : Option String)
    (t2 : Int)
    (hfile : dataDir ++ ["temp", result_filename] ∈ fs) :
    (sweepDisk r dataDir d now grace maxAge unlinkOk).tempFiles = d.tempFiles ∧
    (∀ p ∈ (periodic_cleanup r (iterdirEntries dataDir d) now grace maxAge unlinkOk).deleted.map
        FileEntry.path,
      ∃ nm, nm ∈ d.topFiles ∧ p = dataDir ++ [nm.1]) ∧
    dataDir ++ ["temp", result_filename] ∈
      (get_result fs reg2 dataDir result_filename tcOpt t2).scheduled := by
  refine ⟨?_, deleted_paths_top r dataDir d now grace maxAge unlinkOk,
    get_result_scheduled_result fs reg2 dataDir result_filename tcOpt t2 hfile⟩
  apply foldl_diskErase_tempFiles
  intro p hp
  obtain ⟨nm, -, hpe⟩ := deleted_paths_top r dataDir d now grace maxAge unlinkOk p hp
  exact ⟨nm.1, hpe⟩

/-- Closed instance of `sweep_spares_temp`: an old result file inside
`temp` together with an old orphan at top level. -/
theorem sweep_spares_temp_witness :
    (["code", "data"] ++ ["temp", "out.mp4"] : Path) ∈ [(["code", "data", "temp", "out.mp4"] : Path)] ∧
    ((sweepDisk wRegA ["code", "data"] (Disk.mk [("orphan.bin", 0)] [("out.mp4", 0)])
        10000 60 7200 (fun _ => true)).tempFiles = [("out.mp4", 0)] ∧
      (∀ p ∈ (periodic_cleanup wRegA
          (iterdirEntries ["code", "data"] (Disk.mk [("orphan.bin", 0)] [("out.mp4", 0)]))
          10000 60 7200 (fun _ => true)).deleted.map FileEntry.path,
        ∃ nm, nm ∈ (Disk.mk [("orphan.bin", 0)] [("out.mp4", 0)]).topFiles ∧
          p = ["code", "data"] ++ [nm.1]) ∧
      (["code", "data"] ++ ["temp", "out.mp4"] : Path) ∈
        (get_result [["code", "data", "temp", "out.mp4"]] wRegA ["code", "data"] "out.mp4"
          none 0).scheduled) :=
  ⟨by decide,
    sweep_spares_temp wRegA ["code", "data"] (Disk.mk [("orphan.bin", 0)] [("out.mp4", 0)])
      10000 60 7200 (fun _ => true) [["code", "data", "temp", "out.mp4"]] wRegA "out.mp4" none 0
      (by decide)⟩

/-- A reachable registry in which two jobs both staged a resource with
basename `a.mp3`, so their `audio_local` paths coincide. -/
def wRegShared : Registry :=
  ("j2", mkTaskInfo (stagedPath DUIX_DATA_DIR "a.mp3" "audio" 1 "u3")
      (stagedPath DUIX_DATA_DIR "c.mp4" "video" 1 "u4") 1) ::
    [("j1", mkTaskInfo (stagedPath DUIX_DATA_DIR "a.mp3" "audio" 0 "u1")
        (stagedPath DUIX_DATA_DIR "b.mp4" "video" 0 "u2") 0)]

theorem wRegShared_reachable : ReachableReg DUIX_DATA_DIR wRegShared :=
  Relation.ReflTransGen.tail
    (Relation.ReflTransGen.tail Relation.ReflTransGen.refl
      (RegStep.create [] "j1" "a.mp3" "b.mp4" "u1" "u2" 0 0 0 rfl))
    (RegStep.create
      [("j1", mkTaskInfo (stagedPath DUIX_DATA_DIR "a.mp3" "audio" 0 "u1")
          (stagedPath DUIX_DATA_DIR "b.mp4" "video" 0 "u2") 0)]
      "j2" "a.mp3" "c.mp4" "u3" "u4" 1 1 1 (by decide))

/-- C5 as stated is false on the code: filenames are derived from the
URL basename, so two submissions staging a resource named `a.mp3`
produce two records that reference the same local path
`/code/data/a.mp3` — a state reachable by two create steps. -/
theorem shared_path_claim_false :
    ¬ (∀ r, ReachableReg DUIX_DATA_DIR r → pathsDisjoint r) := by
  intro h
  have hd := h wRegShared wRegShared_reachable
  have hj2 : ("j2", mkTaskInfo (stagedPath DUIX_DATA_DIR "a.mp3" "audio" 1 "u3")
      (stagedPath DUIX_DATA_DIR "c.mp4" "video" 1 "u4") 1) ∈ wRegShared :=
    List.mem_cons_self _ _
  have hj1 : ("j1", mkTaskInfo (stagedPath DUIX_DATA_DIR "a.mp3" "audio" 0 "u1")
      (stagedPath DUIX_DATA_DIR "b.mp4" "video" 0 "u2") 0) ∈ wRegShared :=
    List.mem_cons_of_mem _ (List.mem_singleton.mpr rfl)
  exact hd _ _ hj2 hj1 (by decide) ["code", "data", "a.mp3"] (by decide) (by decide)

/-- `RegStep` with the freshness guards the amended claim assumes:
every path newly referenced by a step is referenced by no other
existing record. -/
inductive GuardedStep (dataDir : Path) : Registry → Registry → Prop
  | create (r : Registry) (jobId aBase vBase aU vU : String) (tA tV tRec : Int)
      (hFresh : lookupTask r jobId = none)
      (hA : ∀ p, p ∈ r → stagedPath dataDir aBase "audio" tA aU ∉ recordFiles p.2)
      (hV : ∀ p, p ∈ r → stagedPath dataDir vBase "video" tV vU ∉ recordFiles p.2) :
      GuardedStep dataDir r
        ((jobId, mkTaskInfo (stagedPath dataDir aBase "audio" tA aU)
            (stagedPath dataDir vBase "video" tV vU) tRec) :: r)
  | attach (r : Registry) (jobId : String) (ti : TaskInfo) (filename : String) (t : Int)
      (hFound : lookupTask r jobId = some ti)
      (hNew : ∀ p, p ∈ r → p.1 ≠ jobId → (dataDir ++ ["temp", filename]) ∉ recordFiles p.2) :
      GuardedStep dataDir r
        (updateTask r jobId
          { ti with result_file := some (dataDir ++ ["temp", filename]),
                    result_retrieved_time := some t })
  | remove (r : Registry) (jobId : String) :
      GuardedStep dataDir r (removeJob r jobId)
  | expire (r : Registry) (now maxAge : Int) :
      GuardedStep dataDir r (expireRecords r now maxAge)

theorem pathsDisjoint_of_subset {r s : Registry} (hsub : ∀ p, p ∈ s → p ∈ r)
    (hd : pathsDisjoint r) : pathsDisjoint s :=
  fun p q hp hq hne f hfp => hd p q (hsub p hp) (hsub q hq) hne f hfp

theorem mem_updateTask {r : Registry} {tc : String} {ti : TaskInfo} {q : String × TaskInfo}
    (h : q ∈ updateTask r tc ti) :
    ∃ p, p ∈ r ∧ ((p.1 = tc ∧ q = (tc, ti)) ∨ (p.1 ≠ tc ∧ q = p)) := by
  rw [updateTask, List.mem_map] at h
  obtain ⟨p, hp, he⟩ := h
  by_cases hc : p.1 = tc
  · rw [if_pos hc] at he
    exact ⟨p, hp, Or.inl ⟨hc, he.symm⟩⟩
  · rw [if_neg hc] at he
    exact ⟨p, hp, Or.inr ⟨hc, he.symm⟩⟩

theorem lookupTask_mem {r : Registry} {tc : String} {ti : TaskInfo}
    (h : lookupTask r tc = some ti) : (tc, ti) ∈ r := by
  induction r with
  | nil => cases h
  | cons p r ih =>
      obtain ⟨a, b⟩ := p
      rw [lookupTask] at h
      by_cases hc : a = tc
      · subst hc
        rw [if_pos rfl] at h
        obtain rfl : b = ti := Option.some.inj h
        exact List.mem_cons_self _ _
      · rw [if_neg hc] at h
        exact List.mem_cons_of_mem _ (ih h)

theorem mem_recordFiles_mk {a v : Path} {t : Int} {f : Path}
    (hf : f ∈ recordFiles (mkTaskInfo a v t)) : f = a ∨ f = v := by
  unfold recordFiles mkTaskInfo at hf
  dsimp only at hf
  rw [List.mem_append, List.mem_append] at hf
  rcases hf with (hf | hf) | hf
  · by_cases ha : a ≠ []
    · rw [if_pos ha] at hf
      exact Or.inl (List.mem_singleton.mp hf)
    · rw [if_neg ha] at hf
      cases hf
  · by_cases hv : v ≠ []
    · rw [if_pos hv] at hf
      exact Or.inr (List.mem_singleton.mp hf)
    · rw [if_neg hv] at hf
      cases hf
  · cases hf

theorem recordFiles_attach {ti : TaskInfo} {rp : Path} {t : Int} {f : Path}
    (hf : f ∈ recordFiles
      { ti with result_file := some rp, result_retrieved_time := some t }) :
    f ∈ recordFiles ti ∨ f = rp := by
  unfold recordFiles at hf ⊢
  dsimp only at hf
  rw [List.mem_append, List.mem_append] at hf
  rcases hf with (hf | hf) | hf
  · exact Or.inl (List.mem_append_left _ (List.mem_append_left _ hf))
  · exact Or.inl (List.mem_append_left _ (List.mem_append_right _ hf))
  · by_cases hrp : rp ≠ []
    · rw [if_pos hrp] at hf
      exact Or.inr (List.mem_singleton.mp hf)
    · rw [if_neg hrp] at hf
      cases hf

theorem guardedStep_preserves {dataDir : Path} {r s : Registry}
    (hstep : GuardedStep dataDir r s) (hd : pathsDisjoint r) : pathsDisjoint s := by
  cases hstep with
  | create jobId aBase vBase aU vU tA tV tRec hFresh hA hV =>
      intro p q hp hq hne f hfp hfq
      rcases List.mem_cons.mp hp with rfl | hp <;> rcases List.mem_cons.mp hq with rfl | hq
      · exact hne rfl
      · rcases mem_recordFiles_mk hfp with rfl | rfl
        · exact hA q hq hfq
        · exact hV q hq hfq
      · rcases mem_recordFiles_mk hfq with rfl | rfl
        · exact hA p hp hfp
        · exact hV p hp hfp
      · exact hd p q hp hq hne f hfp hfq
  | attach jobId ti filename t hFound hNew =>
      intro p q hp hq hne f hfp hfq
      obtain ⟨p0, hp0, hpc⟩ := mem_updateTask hp
      obtain ⟨q0, hq0, hqc⟩ := mem_updateTask hq
      rcases hpc with ⟨hpk, rfl⟩ | ⟨hpk, rfl⟩ <;> rcases hqc with ⟨hqk, rfl⟩ | ⟨hqk, rfl⟩
      · exact hne rfl
      · rcases recordFiles_attach hfp with hf | rfl
        · exact hd (jobId, ti) q (lookupTask_mem hFound) hq0 hne f hf hfq
        · exact hNew q hq0 hqk hfq
      · rcases recordFiles_attach hfq with hf | rfl
        · exact hd p (jobId, ti) hp0 (lookupTask_mem hFound) hne f hfp hf
        · exact hNew p hp0 hpk hfp
      · exact hd p q hp0 hq0 hne f hfp hfq
  | remove jobId =>
      exact pathsDisjoint_of_subset (fun p hp => (List.mem_filter.mp hp).1) hd
  | expire now maxAge =>
      exact pathsDisjoint_of_subset (fun p hp => (List.mem_filter.mp hp).1) hd

/-- C5 amended: path-uniqueness across records holds in every state
reachable through steps whose newly referenced paths are fresh (the
staged paths of a creation, and the result path of an attachment, are
referenced by no other existing record); the registrar itself enforces
no such uniqueness. -/
theorem guarded_paths_disjoint (dataDir : Path) (r : Registry)
    (h : Relation.ReflTransGen (GuardedStep dataDir) [] r) : pathsDisjoint r := by
  induction h with
  | refl =>
      intro p q hp _ _ f _ _
      cases hp
  | tail hab hbc ih => exact guardedStep_preserves hbc ih

/-- A registry reached by one guarded create step. -/
def wRegG : Registry :=
  [("j1", mkTaskInfo (stagedPath DUIX_DATA_DIR "a.mp3" "audio" 0 "u1")
      (stagedPath DUIX_DATA_DIR "b.mp4" "video" 0 "u2") 0)]

theorem wRegG_reachable : Relation.ReflTransGen (GuardedStep DUIX_DATA_DIR) [] wRegG :=
  Relation.ReflTransGen.tail Relation.ReflTransGen.refl
    (GuardedStep.create [] "j1" "a.mp3" "b.mp4" "u1" "u2" 0 0 0 rfl
      (fun p hp => absurd hp (List.not_mem_nil p))
      (fun p hp => absurd hp (List.not_mem_nil p)))

/-- Closed instance of `guarded_paths_disjoint`. -/
theorem guarded_paths_disjoint_witness :
    Relation.ReflTransGen (GuardedStep DUIX_DATA_DIR) [] wRegG ∧ pathsDisjoint wRegG :=
  ⟨wRegG_reachable, guarded_paths_disjoint DUIX_DATA_DIR wRegG wRegG_reachable⟩

end Face2Face
